import Mathlib

/-!
Shallow embedding of the calculator expression engine and editing state
machine of `src/app/components/Calculator.vue`.

JavaScript `number` values reachable from the engine are modelled as
`Option ℚ`: `some q` is a finite value, `none` is the non-finite sentinel
(covering `NaN`, and `undefined` popped from an empty stack, which behaves
like `NaN` under arithmetic).  All arithmetic the claims exercise stays on
small exact values where IEEE doubles and rationals coincide.

Platform string-formatting primitives (`Number.prototype.toString`,
`toExponential(8)`, `toPrecision(16)`) are parameters of the embedding,
collected in a `Platform` structure.
-/

namespace Calc

/-- Token kinds: `type Tok = { type: 'num' | 'op' | 'lpar' | 'rpar', v: string }`. -/
inductive TokType where
  | num
  | op
  | lpar
  | rpar
deriving DecidableEq, Repr

/-- A scanned token, as in the source's `Tok` record. -/
structure Tok where
  type : TokType
  v : String
deriving DecidableEq, Repr

/-- Numeric value of a digit-character list, most significant first. -/
def digitsVal (l : List Char) : Nat :=
  l.foldl (fun a c => a * 10 + (c.toNat - 48)) 0

/-- Model of JavaScript `Number(s)` on the strings the engine produces:
optional sign, digits with at most one dot, optional exponent part.
`Number("") = 0`; a string with no mantissa digit (such as `"."`) or any
other character is `NaN` (`none`).  (Whitespace, `Infinity` and hex
literals never reach `Number` in this engine and are not modelled.) -/
def jsNum (s : String) : Option ℚ :=
  match s.data with
  | [] => some 0
  | cs =>
    let neg : Bool := cs.head? = some '-'
    let cs1 := if cs.head? = some '-' ∨ cs.head? = some '+' then cs.tail else cs
    let ip := cs1.takeWhile Char.isDigit
    let r1 := cs1.dropWhile Char.isDigit
    let fp := if r1.head? = some '.' then r1.tail.takeWhile Char.isDigit else []
    let r2 := if r1.head? = some '.' then r1.tail.dropWhile Char.isDigit else r1
    if ip = [] ∧ fp = [] then none
    else if r2 = [] then
      some (let m : ℚ := (digitsVal (ip ++ fp) : ℚ) / (10 : ℚ) ^ fp.length
            if neg then -m else m)
    else if r2.head? = some 'e' ∨ r2.head? = some 'E' then
      let t := r2.tail
      let esign : Bool := t.head? = some '-'
      let t1 := if t.head? = some '-' ∨ t.head? = some '+' then t.tail else t
      let ed := t1.takeWhile Char.isDigit
      if ed = [] ∨ t1.dropWhile Char.isDigit ≠ [] then none
      else
        some (let m : ℚ := (digitsVal (ip ++ fp) : ℚ) / (10 : ℚ) ^ fp.length
              let e : ℤ := if esign then -(digitsVal ed : ℤ) else (digitsVal ed : ℤ)
              let v := m * (10 : ℚ) ^ e
              if neg then -v else v)
    else none

/-- The scanner's inner number loop (`while (j < s.length && /[0-9.\-]/...)`):
consumes digits, dots and a leading minus, stopping before a second dot, a
non-leading minus, or any other character.  Returns (consumed, rest).
(`sawMinus` in the source is set but never read, so it is omitted.) -/
def numTakeAux : List Char → Nat → Bool → List Char × List Char
  | [], _, _ => ([], [])
  | c :: rest, dots, first =>
    if c = '.' then
      if dots + 1 > 1 then ([], c :: rest)
      else
        let p := numTakeAux rest (dots + 1) false
        (c :: p.1, p.2)
    else if c = '-' then
      if first then
        let p := numTakeAux rest dots false
        (c :: p.1, p.2)
      else ([], c :: rest)
    else if c.isDigit then
      let p := numTakeAux rest dots false
      (c :: p.1, p.2)
    else ([], c :: rest)

/-- One scanning step per unit of fuel; fuel is bounded by the input length,
which suffices because every emitted token consumes at least one character. -/
def tokenizeAux : Nat → List Char → Option (List Tok)
  | 0, _ => none
  | _, [] => some []
  | fuel + 1, c :: rest =>
    if c = ' ' then tokenizeAux fuel rest
    else if c = '(' then (tokenizeAux fuel rest).map (fun ts => ⟨TokType.lpar, "("⟩ :: ts)
    else if c = ')' then (tokenizeAux fuel rest).map (fun ts => ⟨TokType.rpar, ")"⟩ :: ts)
    else if c = '+' ∨ c = '-' ∨ c = '×' ∨ c = '÷' ∨ c = '*' ∨ c = '/' then
      let o := if c = '*' then '×' else if c = '/' then '÷' else c
      (tokenizeAux fuel rest).map (fun ts => ⟨TokType.op, String.singleton o⟩ :: ts)
    else if c.isDigit ∨ c = '.' ∨ c = '-' then
      let p := numTakeAux (c :: rest) 0 true
      (tokenizeAux fuel p.2).map (fun ts => ⟨TokType.num, String.mk p.1⟩ :: ts)
    else none

/-- `tokenize`: raw left-to-right scan; `none` models the thrown
`Error('bad token')` on an unrecognized character. -/
def tokenize (s : String) : Option (List Tok) :=
  tokenizeAux (s.data.length + 1) s.data

/-- The precedence record `{ '+':1, '-':1, '×':2, '÷':2 }`; a missing key
reads as JavaScript `undefined`, modelled by `none`. -/
def prec : String → Option Nat
  | "+" => some 1
  | "-" => some 1
  | "×" => some 2
  | "÷" => some 2
  | _ => none

/-- `prec[a] >= prec[b]` with JavaScript comparison semantics: any
comparison against `undefined` is false. -/
def precGE (a b : String) : Bool :=
  match prec a, prec b with
  | some x, some y => x ≥ y
  | _, _ => false

/-- The incoming-operator pop loop: pop stack-top operators whose precedence
is ≥ the incoming operator's.  Returns (popped in pop order, rest of stack). -/
def popGE (v : String) : List Tok → List Tok × List Tok
  | [] => ([], [])
  | t :: rest =>
    if t.type = TokType.op ∧ precGE t.v v then
      let p := popGE v rest
      (t :: p.1, p.2)
    else ([], t :: rest)

/-- The right-paren pop loop: pop until a left paren (or the stack empties).
Returns (popped in pop order, rest of stack, left paren still on top). -/
def popUntilLpar : List Tok → List Tok × List Tok
  | [] => ([], [])
  | t :: rest =>
    if t.type ≠ TokType.lpar then
      let p := popUntilLpar rest
      (t :: p.1, p.2)
    else ([], t :: rest)

/-- Shunting-yard main loop; the stack's head is its top.  At end of input
every remaining stacked token (operators and stray left parens alike) is
popped to the output. -/
def toRPNAux : List Tok → List Tok → List Tok → List Tok
  | [], out, stack => out ++ stack
  | t :: ts, out, stack =>
    match t.type with
    | TokType.num => toRPNAux ts (out ++ [t]) stack
    | TokType.op =>
      let p := popGE t.v stack
      toRPNAux ts (out ++ p.1) (t :: p.2)
    | TokType.lpar => toRPNAux ts out (t :: stack)
    | TokType.rpar =>
      let p := popUntilLpar stack
      toRPNAux ts (out ++ p.1) p.2.tail

/-- `toRPN`: infix token sequence to postfix order. -/
def toRPN (tokens : List Tok) : List Tok :=
  toRPNAux tokens [] []

/-- One binary operation on possibly-non-finite values: any `NaN`/`undefined`
operand propagates. -/
def jsBin (f : ℚ → ℚ → ℚ) : Option ℚ → Option ℚ → Option ℚ
  | some a, some b => some (f a b)
  | _, _ => none

/-- The evaluator's operator dispatch, including `b === 0 ? NaN : a / b` for
`÷` and the `let r = 0` default for an unknown operator symbol. -/
def applyOp (v : String) (a b : Option ℚ) : Option ℚ :=
  if v = "+" then jsBin (· + ·) a b
  else if v = "-" then jsBin (· - ·) a b
  else if v = "×" then jsBin (· * ·) a b
  else if v = "÷" then
    match b with
    | some y => if y = 0 then none else jsBin (· / ·) a b
    | none => none
  else some 0

/-- RPN evaluation loop; the value stack's head is its top.  Popping an empty
stack yields `undefined` (`none`), which behaves as `NaN` downstream. -/
def evalRPNAux : List Tok → List (Option ℚ) → Option ℚ
  | [], st => st.headD none
  | t :: ts, st =>
    match t.type with
    | TokType.num => evalRPNAux ts (jsNum t.v :: st)
    | TokType.op =>
      let b := st.headD none
      let a := st.tail.headD none
      evalRPNAux ts (applyOp t.v a b :: st.tail.tail)
    | _ => evalRPNAux ts st

/-- `evalRPN`: postfix sequence to a numeric result (`st.pop() ?? NaN`). -/
def evalRPN (rpn : List Tok) : Option ℚ :=
  evalRPNAux rpn []

/-- `evaluate`: tokenize, reorder, evaluate; the outer `Option` is the
exception channel of the thrown tokenizer error. -/
def evaluate (expr : String) : Option (Option ℚ) :=
  (tokenize expr).map (fun ts => evalRPN (toRPN ts))

/-- The platform's number-to-string primitives: default shortest round-trip
`toString`, `toExponential(8)`, and `toPrecision(16)`. -/
structure Platform where
  toStr : ℚ → String
  toExp8 : ℚ → String
  toPrec16 : ℚ → String

/-- `formatNumber`: error text for non-finite input; exponential notation
outside `[1e-6, 1e12)` for nonzero input; otherwise the plain `toString`
rendering, re-rendered at 16 significant digits when longer than 18
characters (or exponential if `toString` itself used an exponent). -/
def formatNumber (P : Platform) (n : Option ℚ) : String :=
  match n with
  | none => "Error"
  | some v =>
    let a := |v|
    if a ≠ 0 ∧ (a < 1 / 1000000 ∨ 1000000000000 ≤ a) then P.toExp8 v
    else
      let s := P.toStr v
      if s.contains 'e' then P.toExp8 v
      else if 18 < s.length then P.toPrec16 v
      else s

/-- The component's reactive state.  The `memory` field is the register
used by the memory operations; its `ref` declaration is absent from the
source file, so the slot itself is modelled from the spec: an optional
single numeric slot, holding at most one value or empty. -/
structure CalcState where
  displayPrimary : String
  displaySecondary : String
  expression : String
  hasError : Bool
  memory : Option ℚ
deriving DecidableEq, Repr

/-- Initial reactive values: `'0'`, `''`, `''`, `false`, empty register. -/
def initState : CalcState :=
  { displayPrimary := "0", displaySecondary := "", expression := "", hasError := false,
    memory := none }

/-- `resetAll`: clears expression, displays and the error flag (the memory
register is untouched). -/
def resetAll (s : CalcState) : CalcState :=
  { s with expression := "", displayPrimary := "0", displaySecondary := "", hasError := false }

/-- `clearEntry`: full reset while in error, otherwise reset the primary
display only. -/
def clearEntry (s : CalcState) : CalcState :=
  if s.hasError then resetAll s
  else { s with displayPrimary := "0" }

/-- `backspace`. -/
def backspace (s : CalcState) : CalcState :=
  if s.hasError then s
  else if s.displayPrimary.length ≤ 1 ∨
      (s.displayPrimary.startsWith "-" ∧ s.displayPrimary.length = 2) then
    { s with displayPrimary := "0" }
  else
    { s with displayPrimary := String.mk s.displayPrimary.data.dropLast }

/-- JavaScript `String.prototype.replace` with a string pattern removes only
the first occurrence; `removeFirst l c` drops the first `c` from `l`. -/
def removeFirst : List Char → Char → List Char
  | [], _ => []
  | x :: xs, c => if x = c then xs else x :: removeFirst xs c

/-- `maxDigits = 16`. -/
def maxDigits : Nat := 16

/-- `inputDigit`: blocked in error or at the significant-digit cap
(length of the display with the first `-` and first `.` removed); replaces a
lone `"0"`/`"-0"` placeholder, otherwise appends. -/
def inputDigit (d : String) (s : CalcState) : CalcState :=
  if s.hasError then s
  else if maxDigits ≤ (removeFirst (removeFirst s.displayPrimary.data '-') '.').length then s
  else if s.displayPrimary = "0" then { s with displayPrimary := d }
  else if s.displayPrimary = "-0" then { s with displayPrimary := "-" ++ d }
  else { s with displayPrimary := s.displayPrimary ++ d }

/-- `inputDot`. -/
def inputDot (s : CalcState) : CalcState :=
  if s.hasError then s
  else if ¬ s.displayPrimary.contains '.' then
    { s with displayPrimary :=
        s.displayPrimary ++ (if s.displayPrimary = "" then "0." else ".") }
  else s

/-- `toggleSign`. -/
def toggleSign (s : CalcState) : CalcState :=
  if s.hasError then s
  else if s.displayPrimary.startsWith "-" then
    { s with displayPrimary := s.displayPrimary.drop 1 }
  else if s.displayPrimary = "0" then { s with displayPrimary := "-0" }
  else { s with displayPrimary := "-" ++ s.displayPrimary }

/-- `percent`: divide the parsed display by 100 in place (no-op when the
display does not parse to a finite number). -/
def percent (P : Platform) (s : CalcState) : CalcState :=
  if s.hasError then s
  else
    match jsNum s.displayPrimary with
    | none => s
    | some n => { s with displayPrimary := P.toStr (n / 100) }

/-- Does the regex `/[+\-×÷]$/` match (is the last character an operator)? -/
def endsWithOp (s : String) : Bool :=
  match s.data.getLast? with
  | some c => c = '+' ∨ c = '-' ∨ c = '×' ∨ c = '÷'
  | none => false

/-- `expression.replace(/[+\-×÷]$/, op)`: replace a trailing operator
character by `op`, or leave the string unchanged when it has none. -/
def replaceLastOp (e : String) (op : String) : String :=
  if endsWithOp e then String.mk e.data.dropLast ++ op else e

/-- `appendOperator`: when the (trimmed) committed expression ends with an
operator, replace that operator; otherwise append the current operand and
the new operator.  The primary display resets to `"0"` and the secondary
display mirrors the committed expression. -/
def appendOperator (op : String) (s : CalcState) : CalcState :=
  if s.hasError then s
  else
    let cur := s.displayPrimary
    let e :=
      if s.expression ≠ "" ∧ endsWithOp s.expression.trim then
        replaceLastOp s.expression op
      else if s.expression ≠ "" then s.expression ++ " " ++ cur ++ " " ++ op
      else cur ++ " " ++ op
    { s with expression := e, displayPrimary := "0", displaySecondary := e }

/-- `computeEquals`: evaluate the concatenated expression; only a *thrown*
tokenizer error reaches the catch block that sets the error flag — a
non-finite numeric result flows into `formatNumber` with the flag left
clear. -/
def computeEquals (P : Platform) (s : CalcState) : CalcState :=
  if s.hasError then s
  else
    let expr := (if s.expression ≠ "" then s.expression ++ " " ++ s.displayPrimary
                 else s.displayPrimary).trim
    match evaluate expr with
    | none => { s with hasError := true, displayPrimary := "Error" }
    | some v =>
      { s with displaySecondary := expr ++ " =",
               displayPrimary := formatNumber P v,
               expression := "" }

/-- `memoryClear`. -/
def memoryClear (s : CalcState) : CalcState :=
  { s with memory := none }

/-- `memoryRecall`: write the register's formatted value to the primary
display when the register is non-empty. -/
def memoryRecall (P : Platform) (s : CalcState) : CalcState :=
  match s.memory with
  | some m => { s with displayPrimary := formatNumber P (some m) }
  | none => s

/-- `memoryAdd`: add the parsed display to the register (empty reads as 0)
when the display parses to a finite number. -/
def memoryAdd (s : CalcState) : CalcState :=
  match jsNum s.displayPrimary with
  | some n => { s with memory := some (s.memory.getD 0 + n) }
  | none => s

/-- `memorySub`: subtract the parsed display from the register (empty reads
as 0) when the display parses to a finite number. -/
def memorySub (s : CalcState) : CalcState :=
  match jsNum s.displayPrimary with
  | some n => { s with memory := some (s.memory.getD 0 - n) }
  | none => s

/-- Press a sequence of digit keys. -/
def pressDigits (ds : List Char) (s : CalcState) : CalcState :=
  ds.foldl (fun st c => inputDigit (String.singleton c) st) s

/-- Leading-zero collapse of a digit sequence: drop leading zeros, `"0"`
when nothing remains. -/
def collapseZeros (ds : List Char) : String :=
  let t := ds.dropWhile (fun c => c = '0')
  if t = [] then "0" else String.mk t

/-! ## Helper lemmas -/

/-- The operator pop loop splits the stack: popped tokens followed by the
remaining stack reassemble it. -/
theorem popGE_append (v : String) (stack : List Tok) :
    (popGE v stack).1 ++ (popGE v stack).2 = stack := by
  induction stack with
  | nil => rfl
  | cons t rest ih =>
    unfold popGE
    split
    · simpa using ih
    · rfl

/-- The right-paren pop loop splits the stack likewise. -/
theorem popUntilLpar_append (stack : List Tok) :
    (popUntilLpar stack).1 ++ (popUntilLpar stack).2 = stack := by
  induction stack with
  | nil => rfl
  | cons t rest ih =>
    unfold popUntilLpar
    split
    · simpa using ih
    · rfl

theorem mem_popGE_fst {v : String} {stack : List Tok} {t : Tok}
    (h : t ∈ (popGE v stack).1) : t ∈ stack := by
  rw [← popGE_append v stack]
  exact List.mem_append_left _ h

theorem mem_popGE_snd {v : String} {stack : List Tok} {t : Tok}
    (h : t ∈ (popGE v stack).2) : t ∈ stack := by
  rw [← popGE_append v stack]
  exact List.mem_append_right _ h

theorem mem_popUntilLpar_fst {stack : List Tok} {t : Tok}
    (h : t ∈ (popUntilLpar stack).1) : t ∈ stack := by
  rw [← popUntilLpar_append stack]
  exact List.mem_append_left _ h

theorem mem_popUntilLpar_snd {stack : List Tok} {t : Tok}
    (h : t ∈ (popUntilLpar stack).2) : t ∈ stack := by
  rw [← popUntilLpar_append stack]
  exact List.mem_append_right _ h

/-- Invariant of the shunting-yard loop: it never moves a right paren into
the output. -/
theorem toRPNAux_no_rpar (ts : List Tok) :
    ∀ (out stack : List Tok),
      (∀ t ∈ out, t.type ≠ TokType.rpar) → (∀ t ∈ stack, t.type ≠ TokType.rpar) →
      ∀ t ∈ toRPNAux ts out stack, t.type ≠ TokType.rpar := by
  induction ts with
  | nil =>
    intro out stack hout hstack t ht
    rcases List.mem_append.mp ht with h | h
    · exact hout t h
    · exact hstack t h
  | cons tk ts ih =>
    intro out stack hout hstack t ht
    obtain ⟨ty, v⟩ := tk
    cases ty with
    | num =>
      refine ih _ _ ?_ hstack t ht
      intro u hu
      rcases List.mem_append.mp hu with h | h
      · exact hout u h
      · rcases List.mem_singleton.mp h with rfl
        simp
    | op =>
      refine ih _ _ ?_ ?_ t ht
      · intro u hu
        rcases List.mem_append.mp hu with h | h
        · exact hout u h
        · exact hstack u (mem_popGE_fst h)
      · intro u hu
        rcases List.mem_cons.mp hu with rfl | h
        · simp
        · exact hstack u (mem_popGE_snd h)
    | lpar =>
      refine ih _ _ hout ?_ t ht
      intro u hu
      rcases List.mem_cons.mp hu with rfl | h
      · simp
      · exact hstack u h
    | rpar =>
      refine ih _ _ ?_ ?_ t ht
      · intro u hu
        rcases List.mem_append.mp hu with h | h
        · exact hout u h
        · exact hstack u (mem_popUntilLpar_fst h)
      · intro u hu
        exact hstack u (mem_popUntilLpar_snd (List.mem_of_mem_tail hu))

/-- Invariant of the shunting-yard loop on inputs without left parens: the
output holds only number and operator tokens. -/
theorem toRPNAux_no_lpar (ts : List Tok) :
    ∀ (out stack : List Tok),
      (∀ t ∈ ts, t.type ≠ TokType.lpar) →
      (∀ t ∈ out, t.type = TokType.num ∨ t.type = TokType.op) →
      (∀ t ∈ stack, t.type = TokType.op) →
      ∀ t ∈ toRPNAux ts out stack, t.type = TokType.num ∨ t.type = TokType.op := by
  induction ts with
  | nil =>
    intro out stack _ hout hstack t ht
    rcases List.mem_append.mp ht with h | h
    · exact hout t h
    · exact Or.inr (hstack t h)
  | cons tk ts ih =>
    intro out stack hts hout hstack t ht
    obtain ⟨ty, v⟩ := tk
    have hts' : ∀ t ∈ ts, t.type ≠ TokType.lpar := fun u hu => hts u (List.mem_cons_of_mem _ hu)
    cases ty with
    | num =>
      refine ih _ _ hts' ?_ hstack t ht
      intro u hu
      rcases List.mem_append.mp hu with h | h
      · exact hout u h
      · rcases List.mem_singleton.mp h with rfl
        simp
    | op =>
      refine ih _ _ hts' ?_ ?_ t ht
      · intro u hu
        rcases List.mem_append.mp hu with h | h
        · exact hout u h
        · exact Or.inr (hstack u (mem_popGE_fst h))
      · intro u hu
        rcases List.mem_cons.mp hu with rfl | h
        · simp
        · exact hstack u (mem_popGE_snd h)
    | lpar =>
      exact absurd rfl (hts ⟨TokType.lpar, v⟩ (List.mem_cons_self _ _))
    | rpar =>
      refine ih _ _ hts' ?_ ?_ t ht
      · intro u hu
        rcases List.mem_append.mp hu with h | h
        · exact hout u h
        · exact Or.inr (hstack u (mem_popUntilLpar_fst h))
      · intro u hu
        exact hstack u (mem_popUntilLpar_snd (List.mem_of_mem_tail hu))

/-- Removing an absent character is the identity. -/
theorem removeFirst_of_not_mem {l : List Char} {c : Char} (h : c ∉ l) :
    removeFirst l c = l := by
  induction l with
  | nil => rfl
  | cons x xs ih =>
    unfold removeFirst
    rw [if_neg, ih (fun hm => h (List.mem_cons_of_mem _ hm))]
    intro hx
    exact h (hx ▸ List.mem_cons_self _ _)

/-- `dropWhile` skips a first block that satisfies the predicate throughout. -/
theorem dropWhile_append_of_all {f : Char → Bool} {l1 l2 : List Char}
    (h : ∀ x ∈ l1, f x) : List.dropWhile f (l1 ++ l2) = List.dropWhile f l2 := by
  induction l1 with
  | nil => rfl
  | cons a t ih =>
    have ha : f a = true := h a (List.mem_cons_self _ _)
    simp only [List.cons_append, List.dropWhile_cons, ha, if_true]
    exact ih (fun x hx => h x (List.mem_cons_of_mem _ hx))

/-- `dropWhile` distributes over an append when it stops inside the first
block. -/
theorem dropWhile_append_of_ne_nil {f : Char → Bool} {l1 l2 : List Char}
    (h : List.dropWhile f l1 ≠ []) :
    List.dropWhile f (l1 ++ l2) = List.dropWhile f l1 ++ l2 := by
  induction l1 with
  | nil => exact absurd rfl h
  | cons a t ih =>
    by_cases ha : f a = true
    · simp only [List.cons_append, List.dropWhile_cons, ha, if_true]
      simp only [List.dropWhile_cons, ha, if_true] at h
      exact ih h
    · have ha' : f a = false := by simpa using ha
      simp [List.cons_append, List.dropWhile_cons, ha']

/-- The head surviving `dropWhile` falsifies the predicate. -/
theorem dropWhile_head_false {f : Char → Bool} {l xs : List Char} {x : Char}
    (h : List.dropWhile f l = x :: xs) : f x = false := by
  induction l with
  | nil => simp at h
  | cons a t ih =>
    rw [List.dropWhile_cons] at h
    split at h
    · exact ih h
    · rename_i hfa
      cases h
      simpa using hfa

/-- Unfolding equation for `collapseZeros`. -/
theorem collapseZeros_eq (p : List Char) :
    collapseZeros p =
      if List.dropWhile (fun c => decide (c = '0')) p = [] then "0"
      else String.mk (List.dropWhile (fun c => decide (c = '0')) p) := rfl

/-- One digit press on a collapsed all-digit display of at most 15 digits
extends the collapsed sequence by that digit. -/
theorem inputDigit_collapse (p : List Char) (c : Char)
    (hp : ∀ x ∈ p, x.isDigit) (hc : c.isDigit) (hlen : p.length ≤ 15) :
    inputDigit (String.singleton c) { initState with displayPrimary := collapseZeros p } =
      { initState with displayPrimary := collapseZeros (p ++ [c]) } := by
  rcases ht : List.dropWhile (fun c => decide (c = '0')) p with _ | ⟨x, xs⟩
  · have hall : ∀ x ∈ p, decide (x = '0') = true := List.dropWhile_eq_nil_iff.mp ht
    have hcp : collapseZeros p = "0" := by rw [collapseZeros_eq, ht]; rfl
    have hrhs : collapseZeros (p ++ [c]) = String.singleton c := by
      rw [collapseZeros_eq, dropWhile_append_of_all hall]
      by_cases hc0 : c = '0'
      · subst hc0; rfl
      · simp [List.dropWhile_cons, hc0]
        rfl
    rw [hcp, hrhs]
    rfl
  · have hx0 : ¬ x = '0' := by
      have := dropWhile_head_false ht
      simpa using this
    have hsub : ∀ u ∈ x :: xs, u ∈ p := by
      intro u hu
      exact (List.dropWhile_sublist (fun c => decide (c = '0'))).mem (ht ▸ hu)
    have hdig : ∀ u ∈ x :: xs, u.isDigit := fun u hu => hp u (hsub u hu)
    have hnm : ('-' : Char) ∉ x :: xs := fun hm => by
      have := hdig '-' hm
      simp at this
    have hnd : ('.' : Char) ∉ x :: xs := fun hm => by
      have := hdig '.' hm
      simp at this
    have hlen2 : (x :: xs).length ≤ 15 := by
      have h1 : (x :: xs).length ≤ p.length := by
        rw [← ht]
        exact (List.dropWhile_sublist _).length_le
      omega
    have hcp : collapseZeros p = String.mk (x :: xs) := by
      rw [collapseZeros_eq, ht]
      simp
    have hrhs : collapseZeros (p ++ [c]) = String.mk (x :: (xs ++ [c])) := by
      rw [collapseZeros_eq, dropWhile_append_of_ne_nil (by rw [ht]; exact List.cons_ne_nil _ _),
        ht]
      simp
    have hne0 : String.mk (x :: xs) ≠ "0" := by
      intro h
      have h2 := congrArg String.data h
      simp at h2
      exact hx0 h2.1
    have hnem0 : String.mk (x :: xs) ≠ "-0" := by
      intro h
      have h2 := congrArg String.data h
      simp at h2
      exact hnm (h2.1 ▸ List.mem_cons_self _ _)
    have hstrip :
        removeFirst (removeFirst (String.mk (x :: xs)).data '-') '.' = x :: xs := by
      rw [show (String.mk (x :: xs)).data = x :: xs from rfl,
        removeFirst_of_not_mem hnm, removeFirst_of_not_mem hnd]
    rw [hcp, hrhs]
    unfold inputDigit
    rw [if_neg (by simp [initState]), if_neg (by rw [hstrip]; simp only [maxDigits]; omega),
      if_neg (by simpa using hne0), if_neg (by simpa using hnem0)]
    rfl

/-- Pressing a digit sequence from a collapsed all-digit display collapses
the concatenation, as long as the total stays within the digit cap. -/
theorem pressDigits_from (ds : List Char) :
    ∀ (p : List Char), (∀ c ∈ ds, c.isDigit) → (∀ x ∈ p, x.isDigit) →
      p.length + ds.length ≤ 16 →
      pressDigits ds { initState with displayPrimary := collapseZeros p } =
        { initState with displayPrimary := collapseZeros (p ++ ds) } := by
  induction ds with
  | nil =>
    intro p _ _ _
    simp [pressDigits]
  | cons c ds ih =>
    intro p hds hp hlen
    have hstep : pressDigits (c :: ds) { initState with displayPrimary := collapseZeros p } =
        pressDigits ds
          (inputDigit (String.singleton c) { initState with displayPrimary := collapseZeros p }) :=
      rfl
    rw [hstep,
      inputDigit_collapse p c hp (hds c (List.mem_cons_self _ _)) (by simp at hlen; omega),
      ih (p ++ [c]) (fun u hu => hds u (List.mem_cons_of_mem _ hu))
        (by
          intro u hu
          rcases List.mem_append.mp hu with h | h
          · exact hp u h
          · rcases List.mem_singleton.mp h with rfl
            exact hds u (List.mem_cons_self _ _))
        (by simp at hlen ⊢; omega)]
    simp

/-! ## Claim theorems -/

/-- C1: contrary to the claim, a non-finite evaluation result does not set
the error flag.  On the input `5 ÷ 0` the evaluation result is the NaN
sentinel and the primary display becomes the fixed error text, but
`hasError` stays `false` (only a *thrown* tokenizer error reaches the catch
block), so the next digit press mutates the state instead of being a
no-op. -/
theorem divZeroLeavesErrorFlagUnset (P : Platform) :
    evaluate "5 ÷ 0" = some none ∧
    computeEquals P (appendOperator "÷" (inputDigit "5" initState)) =
      { displayPrimary := "Error", displaySecondary := "5 ÷ 0 =", expression := "",
        hasError := false, memory := none } ∧
    inputDigit "7" (computeEquals P (appendOperator "÷" (inputDigit "5" initState))) ≠
      computeEquals P (appendOperator "÷" (inputDigit "5" initState)) := by
  have h : computeEquals P (appendOperator "÷" (inputDigit "5" initState)) =
      { displayPrimary := "Error", displaySecondary := "5 ÷ 0 =", expression := "",
        hasError := false, memory := none } := by with_unfolding_all rfl
  refine ⟨by with_unfolding_all rfl, h, ?_⟩
  rw [h]
  decide

/-- C2: contrary to the claim, no post-scan unary-minus pass exists: the
raw scan of `-5 + 3` keeps its leading `-` as a bare operator token (no
`Number("0")` is inserted), and the evaluation result is the NaN sentinel
(stack underflow), not `-2`. -/
theorem unaryMinusNotNormalized :
    tokenize "-5 + 3" =
      some [⟨TokType.op, "-"⟩, ⟨TokType.num, "5"⟩, ⟨TokType.op, "+"⟩, ⟨TokType.num, "3"⟩] ∧
    evaluate "-5 + 3" = some none := by
  constructor
  · decide
  · with_unfolding_all rfl

/-- C3: contrary to the claim, an operator press replaces the trailing
operator of the committed expression whenever the expression is non-empty —
even when a fresh operand has been entered since the previous operator
press.  Pressing `1`, `+`, `2`, `+` leaves the committed expression at
`"1 +"`: the operand `2` is silently discarded instead of being appended. -/
theorem operatorPressDiscardsOperand :
    appendOperator "+" (inputDigit "2" (appendOperator "+" (inputDigit "1" initState))) =
      { displayPrimary := "0", displaySecondary := "1 +", expression := "1 +",
        hasError := false, memory := none } := by
  with_unfolding_all rfl

/-- C4 counterexample: on the input consisting of a single left paren,
`toRPN` copies that left paren into its output, so the output is not made
of Number and Operator tokens only. -/
theorem toRPNEmitsLeftParen :
    toRPN [⟨TokType.lpar, "("⟩] = [⟨TokType.lpar, "("⟩] ∧
    ((toRPN [⟨TokType.lpar, "("⟩]).all
      (fun t => t.type == TokType.num || t.type == TokType.op)) = false := by
  constructor <;> decide

/-- C4 (amended): `toRPN` always succeeds; a leading unmatched right paren
is silently ignored; the final flush pops every remaining stacked token —
stray left parens included — to the output, so the output never contains a
right paren, and contains only Number and Operator tokens whenever the
input has no left paren. -/
theorem toRPNOutputShape (ts : List Tok) :
    ((toRPN ts).all fun t => !(t.type == TokType.rpar)) = true ∧
    ((ts.all fun t => !(t.type == TokType.lpar)) = true →
      ((toRPN ts).all fun t => (t.type == TokType.num || t.type == TokType.op)) = true) ∧
    toRPN (⟨TokType.rpar, ")"⟩ :: ts) = toRPN ts := by
  refine ⟨?_, ?_, rfl⟩
  · rw [List.all_eq_true]
    intro t ht
    have := toRPNAux_no_rpar ts [] [] (by simp) (by simp) t ht
    simpa using this
  · intro h
    rw [List.all_eq_true] at h ⊢
    intro t ht
    have hts : ∀ t ∈ ts, t.type ≠ TokType.lpar := by
      intro u hu
      have := h u hu
      simpa using this
    have := toRPNAux_no_lpar ts [] [] hts (by simp) (by simp) t ht
    rcases this with h1 | h1 <;> simp [h1]

/-- C4 witness: a concrete paren-free token sequence (with an unmatched
right paren) whose postfix output is all Number/Operator tokens. -/
theorem toRPNOutputShapeWitness :
    (([⟨TokType.num, "1"⟩, ⟨TokType.op, "+"⟩, ⟨TokType.num, "2"⟩, ⟨TokType.rpar, ")"⟩] :
        List Tok).all fun t => !(t.type == TokType.lpar)) = true ∧
    ((toRPN [⟨TokType.num, "1"⟩, ⟨TokType.op, "+"⟩, ⟨TokType.num, "2"⟩, ⟨TokType.rpar, ")"⟩]).all
      fun t => (t.type == TokType.num || t.type == TokType.op)) = true :=
  ⟨by decide,
   (toRPNOutputShape
     [⟨TokType.num, "1"⟩, ⟨TokType.op, "+"⟩, ⟨TokType.num, "2"⟩, ⟨TokType.rpar, ")"⟩]).2.1
     (by decide)⟩

/-- C5: `memoryClear` empties the register; `memoryAdd`/`memorySub` with a
finite parsed display add/subtract that value, an empty register reading as
0, and skip otherwise; `memoryRecall` with a non-empty register writes the
register's formatted value to the primary display; no other operation
mutates the register. -/
theorem memoryRegisterOps (P : Platform) (s : CalcState) (q : ℚ) (d op : String) :
    (memoryClear s).memory = none ∧
    (jsNum s.displayPrimary = some q →
      memoryAdd s = { s with memory := some (s.memory.getD 0 + q) } ∧
      memorySub s = { s with memory := some (s.memory.getD 0 - q) }) ∧
    (jsNum s.displayPrimary = none → memoryAdd s = s ∧ memorySub s = s) ∧
    (s.memory = some q → memoryRecall P s = { s with displayPrimary := formatNumber P (some q) }) ∧
    (s.memory = none → memoryRecall P s = s) ∧
    (inputDigit d s).memory = s.memory ∧
    (inputDot s).memory = s.memory ∧
    (toggleSign s).memory = s.memory ∧
    (percent P s).memory = s.memory ∧
    (backspace s).memory = s.memory ∧
    (clearEntry s).memory = s.memory ∧
    (resetAll s).memory = s.memory ∧
    (appendOperator op s).memory = s.memory ∧
    (computeEquals P s).memory = s.memory ∧
    (memoryRecall P s).memory = s.memory := by
  refine ⟨rfl, ?_, ?_, ?_, ?_, ?_, ?_, ?_, ?_, ?_, ?_, ?_, ?_, ?_, ?_⟩
  · intro h; constructor <;> simp [memoryAdd, memorySub, h]
  · intro h; constructor <;> simp [memoryAdd, memorySub, h]
  · intro h; simp [memoryRecall, h]
  · intro h; simp [memoryRecall, h]
  · unfold inputDigit; split_ifs <;> rfl
  · unfold inputDot; split_ifs <;> rfl
  · unfold toggleSign; split_ifs <;> rfl
  · unfold percent; split_ifs with h1
    · rfl
    · split <;> rfl
  · unfold backspace; split_ifs <;> rfl
  · unfold clearEntry resetAll; split_ifs <;> rfl
  · rfl
  · unfold appendOperator; split_ifs <;> rfl
  · unfold computeEquals; split_ifs with h1
    · rfl
    · dsimp only; split <;> rfl
    · dsimp only; split <;> rfl
  · unfold memoryRecall; split <;> rfl

/-- C5 witness: adding the display `"5"` to an empty register stores 5, and
recall then formats the stored value onto the display. -/
theorem memoryRegisterOpsWitness :
    jsNum "5" = some 5 ∧
    memoryAdd { initState with displayPrimary := "5" } =
      { initState with displayPrimary := "5", memory := some 5 } ∧
    memoryRecall ⟨fun _ => "5", fun _ => "E", fun _ => "P"⟩
        { initState with displayPrimary := "5", memory := some 5 } =
      { initState with displayPrimary := "5", memory := some 5 } := by
  have h5 : jsNum "5" = some 5 := by with_unfolding_all rfl
  refine ⟨h5, ?_, ?_⟩
  · have h := ((memoryRegisterOps ⟨fun _ => "5", fun _ => "E", fun _ => "P"⟩
      { initState with displayPrimary := "5" } 5 "1" "+").2.1 h5).1
    rw [h]
    with_unfolding_all rfl
  · have h := (memoryRegisterOps ⟨fun _ => "5", fun _ => "E", fun _ => "P"⟩
      { initState with displayPrimary := "5", memory := some 5 } 5 "1" "+").2.2.2.1 rfl
    rw [h]
    with_unfolding_all rfl

/-- C6: the pipeline respects precedence and parentheses: `2 + 3 × 4`
evaluates to 14 and `(2 + 3) × 4` to 20. -/
theorem precedenceAndParens :
    evaluate "2 + 3 × 4" = some (some 14) ∧ evaluate "(2 + 3) × 4" = some (some 20) := by
  constructor <;> with_unfolding_all rfl

/-- C7: `formatNumber` renders the fixed error text for non-finite input;
for zero or magnitude in `[1e-6, 1e12)` (when the platform's plain
rendering carries no exponent marker) it returns the plain `toString`, or
its 16-significant-digit re-rendering when that plain string exceeds 18
characters; for nonzero magnitude outside the band it returns the
8-digit-mantissa exponential rendering. -/
theorem formatNumberCases (P : Platform) (n : ℚ) :
    formatNumber P none = "Error" ∧
    ((n = 0 ∨ (1 / 1000000 ≤ |n| ∧ |n| < 1000000000000)) →
      (P.toStr n).contains 'e' = false →
      (((P.toStr n).length ≤ 18 → formatNumber P (some n) = P.toStr n) ∧
       (18 < (P.toStr n).length → formatNumber P (some n) = P.toPrec16 n))) ∧
    (n ≠ 0 → (|n| < 1 / 1000000 ∨ 1000000000000 ≤ |n|) →
      formatNumber P (some n) = P.toExp8 n) := by
  have hred : formatNumber P (some n) =
      (if |n| ≠ 0 ∧ (|n| < 1 / 1000000 ∨ 1000000000000 ≤ |n|) then P.toExp8 n
       else if (P.toStr n).contains 'e' then P.toExp8 n
       else if 18 < (P.toStr n).length then P.toPrec16 n else P.toStr n) := rfl
  refine ⟨rfl, ?_, ?_⟩
  · intro hband he
    have hcond : ¬ (|n| ≠ 0 ∧ (|n| < 1 / 1000000 ∨ 1000000000000 ≤ |n|)) := by
      rcases hband with h0 | ⟨h1, h2⟩
      · simp [h0]
      · push_neg
        intro _
        constructor <;> linarith
    constructor
    · intro hlen
      rw [hred, if_neg hcond]
      simp [he, Nat.not_lt.mpr hlen]
    · intro hlen
      rw [hred, if_neg hcond]
      simp [he, hlen]
  · intro h0 hout
    rw [hred, if_pos ⟨abs_ne_zero.mpr h0, hout⟩]

/-- C7 witness: a platform whose plain rendering of 3/2 is `"1.5"` yields
that plain string for the in-band value 3/2, and the exponential rendering
for the out-of-band value 2e12. -/
theorem formatNumberCasesWitness :
    ((((⟨fun _ => "1.5", fun _ => "E", fun _ => "P"⟩ : Platform).toStr (3 / 2)).contains 'e')
        = false) ∧
    formatNumber ⟨fun _ => "1.5", fun _ => "E", fun _ => "P"⟩ (some (3 / 2)) = "1.5" ∧
    formatNumber ⟨fun _ => "1.5", fun _ => "E", fun _ => "P"⟩ (some 2000000000000) = "E" :=
  ⟨by with_unfolding_all rfl,
   ((formatNumberCases ⟨fun _ => "1.5", fun _ => "E", fun _ => "P"⟩ (3 / 2)).2.1
     (Or.inr ⟨by rw [abs_of_pos (by norm_num : (0:ℚ) < 3 / 2)]; norm_num,
               by rw [abs_of_pos (by norm_num : (0:ℚ) < 3 / 2)]; norm_num⟩)
     (by with_unfolding_all rfl)).1
     (by with_unfolding_all decide),
   (formatNumberCases ⟨fun _ => "1.5", fun _ => "E", fun _ => "P"⟩ 2000000000000).2.2
     (by norm_num)
     (Or.inr (by rw [abs_of_pos (by norm_num : (0:ℚ) < 2000000000000)]; norm_num))⟩

/-- C8: once the error flag is set, digit, decimal-point, sign, percent,
backspace, operator and equals presses all leave the whole state unchanged;
clear entry behaves as a full reset, and a full reset clears the flag. -/
theorem errorStateLocksEditing (P : Platform) (s : CalcState) (d op : String)
    (h : s.hasError = true) :
    inputDigit d s = s ∧ inputDot s = s ∧ toggleSign s = s ∧ percent P s = s ∧
    backspace s = s ∧ appendOperator op s = s ∧ computeEquals P s = s ∧
    clearEntry s = resetAll s ∧ (resetAll s).hasError = false := by
  unfold inputDigit inputDot toggleSign percent backspace appendOperator computeEquals
    clearEntry resetAll
  simp [h]

/-- C8 witness: a concrete error state on which a digit press is a no-op
and clear entry coincides with full reset. -/
theorem errorStateLocksEditingWitness :
    (⟨"Error", "5 ÷ 0 =", "", true, none⟩ : CalcState).hasError = true ∧
    inputDigit "7" ⟨"Error", "5 ÷ 0 =", "", true, none⟩ = ⟨"Error", "5 ÷ 0 =", "", true, none⟩ ∧
    clearEntry ⟨"Error", "5 ÷ 0 =", "", true, none⟩ =
      resetAll ⟨"Error", "5 ÷ 0 =", "", true, none⟩ :=
  ⟨rfl,
   (errorStateLocksEditing ⟨fun _ => "", fun _ => "", fun _ => ""⟩
     ⟨"Error", "5 ÷ 0 =", "", true, none⟩ "7" "+" rfl).1,
   (errorStateLocksEditing ⟨fun _ => "", fun _ => "", fun _ => ""⟩
     ⟨"Error", "5 ÷ 0 =", "", true, none⟩ "7" "+" rfl).2.2.2.2.2.2.2.1⟩

/-- C9: a digit press (not in error) is a no-op at the 16-significant-digit
cap, replaces a lone `"0"`/`"-0"` placeholder, and otherwise appends; and
pressing any digit sequence of length at most 16 from the initial state
leaves the primary display equal to the sequence modulo leading-zero
collapse. -/
theorem digitEntry (s : CalcState) (d : String) (ds : List Char) :
    (s.hasError = false →
      (maxDigits ≤ (removeFirst (removeFirst s.displayPrimary.data '-') '.').length →
        inputDigit d s = s) ∧
      (¬ maxDigits ≤ (removeFirst (removeFirst s.displayPrimary.data '-') '.').length →
        (s.displayPrimary = "0" → inputDigit d s = { s with displayPrimary := d }) ∧
        (s.displayPrimary = "-0" → inputDigit d s = { s with displayPrimary := "-" ++ d }) ∧
        (s.displayPrimary ≠ "0" → s.displayPrimary ≠ "-0" →
          inputDigit d s = { s with displayPrimary := s.displayPrimary ++ d }))) ∧
    ((∀ c ∈ ds, c.isDigit) → ds.length ≤ 16 →
      (pressDigits ds initState).displayPrimary = collapseZeros ds) := by
  constructor
  · intro he
    constructor
    · intro hcap
      unfold inputDigit
      rw [if_neg (by simp [he]), if_pos hcap]
    · intro hcap
      refine ⟨?_, ?_, ?_⟩
      · intro h0
        unfold inputDigit
        rw [if_neg (by simp [he]), if_neg hcap, if_pos h0]
      · intro h0
        unfold inputDigit
        rw [if_neg (by simp [he]), if_neg hcap, if_neg (by rw [h0]; decide), if_pos h0]
      · intro h0 hm0
        unfold inputDigit
        rw [if_neg (by simp [he]), if_neg hcap, if_neg h0, if_neg hm0]
  · intro hds hlen
    have h0 : ({ initState with displayPrimary := collapseZeros [] } : CalcState) = initState :=
      rfl
    have := pressDigits_from ds [] hds (by simp) (by simpa using hlen)
    rw [h0] at this
    rw [this]
    simp

/-- C9 witness: a 16-digit display blocks a further digit press, and the
key sequence `0 0 7 5` from the initial state shows `"75"` (leading zeros
collapsed). -/
theorem digitEntryWitness :
    ({ initState with displayPrimary := "1234567890123456" } : CalcState).hasError = false ∧
    maxDigits ≤
      (removeFirst (removeFirst ("1234567890123456" : String).data '-') '.').length ∧
    inputDigit "7" { initState with displayPrimary := "1234567890123456" } =
      { initState with displayPrimary := "1234567890123456" } ∧
    (['0', '0', '7', '5'].all Char.isDigit) = true ∧
    (pressDigits ['0', '0', '7', '5'] initState).displayPrimary =
      collapseZeros ['0', '0', '7', '5'] :=
  ⟨rfl, by decide,
   ((digitEntry { initState with displayPrimary := "1234567890123456" } "7" []).1 rfl).1
     (by decide),
   by decide,
   (digitEntry initState "7" ['0', '0', '7', '5']).2 (by decide) (by decide)⟩

/-- C10: when the error flag is clear, clear entry resets only the primary
display to `"0"`, leaving the committed expression, the secondary display,
the error flag and the memory register unchanged. -/
theorem clearEntryFrame (s : CalcState) (h : s.hasError = false) :
    clearEntry s = { s with displayPrimary := "0" } := by
  simp [clearEntry, h]

/-- C10 witness: clear entry on a concrete non-error mid-edit state resets
only the primary display. -/
theorem clearEntryFrameWitness :
    (⟨"5", "1 +", "1 +", false, some 2⟩ : CalcState).hasError = false ∧
    clearEntry ⟨"5", "1 +", "1 +", false, some 2⟩ = ⟨"0", "1 +", "1 +", false, some 2⟩ :=
  ⟨rfl, clearEntryFrame ⟨"5", "1 +", "1 +", false, some 2⟩ rfl⟩

end Calc
